import Mathlib

/-!
Verification of the MVZ self-update engine (`src/ui/mvz_updater.py`).

The Python module is shallowly embedded: pure helpers become Lean
functions over `String` (represented through its `List Char` data so
every definition evaluates in the kernel), filesystem-dependent helpers
take an explicit read-only filesystem oracle, and the exception-based
control flow is rendered with `Except`.  Python `str` operations used by
the source (`replace` of a single character, `lstrip`, `strip`,
`lower`, `split`, `startswith`, `os.path.basename`, `os.path.join`,
`int(...)` on digit strings) are reimplemented below on `List Char`.
-/

deriving instance DecidableEq for Except

namespace MvzUpdater

/-- Python `s.replace(a, b)` for one-character patterns. -/
def strMapChars (f : Char → Char) (s : String) : String :=
  ⟨s.data.map f⟩

/-- Python `s.replace("\\", "/")`. -/
def normSlashes (s : String) : String :=
  strMapChars (fun c => if c = '\\' then '/' else c) s

/-- Python `s.lower()` (ASCII; the source only compares ASCII names). -/
def strToLower (s : String) : String :=
  strMapChars Char.toLower s

/-- Python `s.lstrip(ch)`: drop every leading occurrence of one character. -/
def strLstripChar (ch : Char) (s : String) : String :=
  ⟨s.data.dropWhile (fun c => c = ch)⟩

/-- Python `s.strip()` (whitespace on both ends). -/
def strTrim (s : String) : String :=
  ⟨((s.data.dropWhile Char.isWhitespace).reverse.dropWhile Char.isWhitespace).reverse⟩

/-- Split a character list on a separator character, Python `str.split(sep)`
    semantics: `"" ↦ [""]`, separators at the ends produce empty fields. -/
def splitCharList (sep : Char) : List Char → List (List Char)
  | [] => [[]]
  | c :: cs =>
    let r := splitCharList sep cs
    if c = sep then [] :: r
    else
      match r with
      | h :: t => (c :: h) :: t
      | [] => [[c]]

/-- Python `s.split(sep)` for a one-character separator. -/
def splitChar (sep : Char) (s : String) : List String :=
  (splitCharList sep s.data).map (fun l => ⟨l⟩)

/-- Python `s.startswith(pre)`. -/
def strStartsWith (s pre : String) : Bool :=
  pre.data.isPrefixOf s.data

/-- Python `ch in s`. -/
def strContainsChar (s : String) (c : Char) : Bool :=
  s.data.contains c

/-- Python `int(p) if p.isdigit() else 0` (ASCII digits). -/
def pyDigitVal (s : String) : Nat :=
  if !s.data.isEmpty && s.data.all Char.isDigit then
    s.data.foldl (fun n c => n * 10 + (c.toNat - 48)) 0
  else 0

/-- `"/".join parts` (used for `str(PurePosixPath(...))`). -/
def joinParts : List String → String
  | [] => ""
  | [x] => x
  | x :: xs => x ++ "/" ++ joinParts xs

/-- Python `os.path.join(base, rel)` for a relative `rel` (the only way the
    source calls it); the separator is modelled as `/`. -/
def joinPath (a b : String) : String := a ++ "/" ++ b

/-- Python `os.path.basename` (after normalizing separators). -/
def basenameOf (s : String) : String :=
  (splitChar '/' (normSlashes s)).getLastD ""

/-- `PurePosixPath(rel).parts` for a relative `rel`: `"/"`-separated
    components with empty and `"."` components normalized away
    (`".."` components are kept). -/
def posixParts (rel : String) : List String :=
  (splitChar '/' rel).filter (fun seg => seg ≠ "" && seg ≠ ".")

/-- `str(PurePosixPath(rel))` for a relative `rel`: the joined parts, or
    `"."` when there are none. -/
def posixStr (parts : List String) : String :=
  if parts = [] then "." else joinParts parts

/-- `mvz_updater._safe_rel_path` (lines 59–64): normalize backslashes to
    `/`, strip leading slashes, then reject paths with a `".."` component
    or a `:` in the first component.  Raising `ValueError` is modelled by
    `Except.error` carrying the formatted message. -/
def _safe_rel_path (rel : String) : Except String String :=
  let rel := strLstripChar '/' (normSlashes rel)
  let parts := posixParts rel
  if strStartsWith rel "/" || parts.contains ".." ||
      (decide (parts.length > 0) && strContainsChar (parts.headD "") ':') then
    Except.error ("Bad path: " ++ rel)
  else
    Except.ok (posixStr parts)

/-- `mvz_updater.sha256_file` is never interpreted: local hashing is part of
    the filesystem oracle below.  `FS` gives the read-only view of the
    installation root that `compute_changed_files` / `compute_delete_files`
    consult: `os.path.isfile`, `os.path.exists`, and `sha256_file` (whose
    `IOError` is an `Except.error`, and whose success is the hex digest). -/
structure FS where
  isfile : String → Bool
  pathExists : String → Bool
  digest : String → Except String String

/-- One element of the manifest's `files` list: either not a JSON object
    (skipped by the source) or an object with optional `path` / `sha256`
    string fields (absent or non-string modelled as `none`). -/
inductive ManifestItem where
  | junk
  | file (path : Option String) (sha256 : Option String)
deriving DecidableEq

/-- One element of the manifest's `delete` list: `none` models a
    non-string entry (skipped by the source). -/
abbrev DeleteItem := Option String

/-- The manifest after `load_manifest` validation: `files` is a list,
    `delete` is a list (defaulting to empty), `package` is the optional
    package asset name. -/
structure Manifest where
  package : Option String
  files : List ManifestItem
  delete : List DeleteItem
deriving DecidableEq

/-- `(item.get("sha256") or "").lower().strip()` from lines 162. -/
def shaNorm (s : Option String) : String :=
  strTrim (strToLower (s.getD ""))

/-- `mvz_updater._dedupe_keep_order` worker: `seen` is the set of already
    emitted entries. -/
def dedupGo (seen : List String) : List String → List String
  | [] => []
  | x :: xs => if x ∈ seen then dedupGo seen xs else x :: dedupGo (x :: seen) xs

/-- `mvz_updater._dedupe_keep_order` (lines 147–153). -/
def _dedupe_keep_order (items : List String) : List String :=
  dedupGo [] items

/-- The body of the `try/except` at lines 167–174: an entry is marked
    changed when the local file is missing, its digest differs after
    lower-casing, or hashing it raises. -/
def localChanged (fs : FS) (localPath sha : String) : Bool :=
  if fs.isfile localPath = false then true
  else
    match fs.digest localPath with
    | Except.error _ => true
    | Except.ok d => if strToLower d = sha then false else true

/-- The manifest scan of `compute_changed_files` (lines 157–174) before
    de-duplication.  A `ValueError` from `_safe_rel_path` aborts the whole
    scan, as the exception does in Python. -/
def changedRaw (fs : FS) (base_dir : String) : List ManifestItem → Except String (List String)
  | [] => Except.ok []
  | ManifestItem.junk :: rest => changedRaw fs base_dir rest
  | ManifestItem.file p s :: rest =>
    let sha := shaNorm s
    match p with
    | none => changedRaw fs base_dir rest
    | some rel0 =>
      if rel0 = "" then changedRaw fs base_dir rest
      else if sha = "" then changedRaw fs base_dir rest
      else
        match _safe_rel_path rel0 with
        | Except.error e => Except.error e
        | Except.ok rel =>
          if localChanged fs (joinPath base_dir rel) sha then
            (changedRaw fs base_dir rest).map (fun tail => rel :: tail)
          else changedRaw fs base_dir rest

/-- `mvz_updater.compute_changed_files` (lines 156–175). -/
def compute_changed_files (m : Manifest) (fs : FS) (base_dir : String) :
    Except String (List String) :=
  (changedRaw fs base_dir m.files).map _dedupe_keep_order

/-- The scan of `compute_delete_files` (lines 179–186) before
    de-duplication. -/
def deleteRaw (fs : FS) (base_dir : String) : List DeleteItem → Except String (List String)
  | [] => Except.ok []
  | none :: rest => deleteRaw fs base_dir rest
  | some rel0 :: rest =>
    match _safe_rel_path rel0 with
    | Except.error e => Except.error e
    | Except.ok rel =>
      if fs.pathExists (joinPath base_dir rel) then
        (deleteRaw fs base_dir rest).map (fun tail => rel :: tail)
      else deleteRaw fs base_dir rest

/-- `mvz_updater.compute_delete_files` (lines 178–187). -/
def compute_delete_files (m : Manifest) (fs : FS) (base_dir : String) :
    Except String (List String) :=
  (deleteRaw fs base_dir m.delete).map _dedupe_keep_order

/-- `mvz_updater.needs_deferred` (lines 206–209). -/
def needs_deferred (rel exe_name : String) (allow_internal : Bool) : Bool :=
  let p := strToLower (normSlashes rel)
  let exe := strToLower (normSlashes exe_name)
  p == exe || (allow_internal && strStartsWith p "_internal/")

/-- The classification rule exactly as claim C2 words it: the *basename*
    of the path case-insensitively equals the executable name, or the
    shared-runtime subtree applies.  (Second definition, written from the
    spec's words, for comparison with `needs_deferred`.) -/
def needs_deferred_claimed (rel exe_name : String) (allow_internal : Bool) : Bool :=
  strToLower (basenameOf rel) == strToLower exe_name ||
    (allow_internal && strStartsWith (strToLower (normSlashes rel)) "_internal/")

/-- `mvz_updater._version_tuple` (lines 266–268): strip whitespace, strip
    leading `v` characters, truncate at the first `-` and `+`, split on
    `.`, pad with `"0"`, take three components, each parsed as a number
    when all digits and `0` otherwise. -/
def _version_tuple (v : String) : Nat × Nat × Nat :=
  let s0 := strLstripChar 'v' (strTrim v)
  let s1 := (splitChar '-' s0).headD ""
  let s := (splitChar '+' s1).headD ""
  let ps := ((splitChar '.' s) ++ ["0", "0", "0"]).take 3
  (pyDigitVal (ps.getD 0 "0"), pyDigitVal (ps.getD 1 "0"), pyDigitVal (ps.getD 2 "0"))

/-- Lexicographic `<` on version 3-tuples (Python tuple comparison). -/
def tupleLtB : Nat × Nat × Nat → Nat × Nat × Nat → Bool
  | (a1, a2, a3), (b1, b2, b3) =>
    if a1 ≠ b1 then decide (a1 < b1)
    else if a2 ≠ b2 then decide (a2 < b2)
    else decide (a3 < b3)

/-- Lexicographic `≤` on version 3-tuples (Python tuple comparison),
    the form used at line 290. -/
def tupleLeB : Nat × Nat × Nat → Nat × Nat × Nat → Bool
  | (a1, a2, a3), (b1, b2, b3) =>
    if a1 ≠ b1 then decide (a1 < b1)
    else if a2 ≠ b2 then decide (a2 < b2)
    else decide (a3 ≤ b3)

/-- A zip archive: association list from entry name to entry bytes. -/
abbrev ZipFile := List (String × String)

/-- `z.namelist()`. -/
def zip_namelist (zip : ZipFile) : List String :=
  zip.map Prod.fst

/-- `z.open(name)`: bytes of the first entry with that name. -/
def zipOpen (zip : ZipFile) (n : String) : Option String :=
  (zip.find? (fun e => e.1 == n)).map Prod.snd

/-- The extraction loop of `extract_needed_from_zip` (lines 194–203) on
    already sanitized paths.  Returns the `(staging path, bytes)` writes
    performed in order and, when an entry is missing under both its own
    name and `./`-prefixed, the `RuntimeError` message — writes already
    performed before the failing entry are kept, later entries are not
    reached. -/
def extractGo (zip : ZipFile) (out_dir : String) : List String → List (String × String) × Option String
  | [] => ([], none)
  | rel :: rest =>
    let names := zip_namelist zip
    let real_name := if names.contains rel then rel else "./" ++ rel
    if !names.contains real_name && !names.contains rel then
      ([], some ("update.zip missing file: " ++ rel))
    else
      let use_name := if names.contains real_name then real_name else rel
      let bytes := (zipOpen zip use_name).getD ""
      let r := extractGo zip out_dir rest
      ((joinPath out_dir rel, bytes) :: r.1, r.2)

/-- `mvz_updater.extract_needed_from_zip` (lines 190–203): every needed
    path is first passed through `_safe_rel_path` (a `ValueError` there
    aborts before the archive is opened), then each entry is copied to
    `out_dir/rel`. -/
def extract_needed_from_zip (zip : ZipFile) (needed_paths : List String) (out_dir : String) :
    Except String (List (String × String) × Option String) :=
  match needed_paths.mapM _safe_rel_path with
  | Except.error e => Except.error e
  | Except.ok sanitized => Except.ok (extractGo zip out_dir sanitized)

/-- Whether the archive satisfies one requested sanitized path (the
    membership test of lines 196–197). -/
def zipHasEntry (zip : ZipFile) (rel : String) : Bool :=
  (zip_namelist zip).contains rel || (zip_namelist zip).contains ("./" ++ rel)

/-- An `ssl.SSLContext`, reduced to the two flags
    `ssl._create_unverified_context` clears. -/
structure SSLContext where
  check_hostname : Bool
  verify_cert : Bool
deriving DecidableEq

/-- `ssl._create_unverified_context()`: hostname checking off,
    certificate verification off. -/
def ssl_create_unverified_context : SSLContext :=
  ⟨false, false⟩

/-- The module-level `_SSL_CONTEXT` (line 45). -/
def _SSL_CONTEXT : SSLContext :=
  ssl_create_unverified_context

/-- An HTTP request as issued by `_urlopen` (lines 48–50): URL, the
    `User-Agent` header, and the SSL context passed to `urlopen`. -/
structure HttpRequest where
  url : String
  user_agent : String
  context : SSLContext
deriving DecidableEq

/-- Every request in the module is built with
    `urllib.request.Request(url, headers={"User-Agent": ua})` and opened
    through `_urlopen`, hence carries `_SSL_CONTEXT`. -/
def _urlopen_request (url user_agent : String) : HttpRequest :=
  ⟨url, user_agent, _SSL_CONTEXT⟩

/-- Whether a TLS handshake for request `r` fails certificate validation,
    given whether the server certificate is actually valid: it fails
    exactly when the context verifies certificates and the certificate is
    bad. -/
def cert_validation_failure (r : HttpRequest) (cert_ok : Bool) : Bool :=
  r.context.verify_cert && !cert_ok

/-- One element of a GitHub release's `assets` list. -/
structure ReleaseAsset where
  name : Option String
  browser_download_url : Option String
deriving DecidableEq

/-- The release JSON, reduced to the fields the updater reads. -/
structure Release where
  tag_name : Option String
  assets : List ReleaseAsset
deriving DecidableEq

/-- `mvz_updater.find_asset_url` (lines 99–103): URL of the first asset
    whose `name` equals `asset_name` (which may itself be `None`/empty). -/
def find_asset_url (release : Release) (asset_name : String) : Option String :=
  match release.assets.find? (fun a => a.name == some asset_name) with
  | some a => a.browser_download_url
  | none => none

/-- Python `x or default` for an optional string: `None` and `""` both
    fall back. -/
def optStrOr (o : Option String) (d : String) : String :=
  match o with
  | none => d
  | some s => if s = "" then d else s

/-- `(manifest.get("package") or "update.zip").strip() or "update.zip"`
    (line 309). -/
def package_name_of (m : Manifest) : String :=
  let s := strTrim (optStrOr m.package "update.zip")
  if s = "" then "update.zip" else s

/-- `mvz_updater.UpdateResult` (lines 23–28). -/
structure UpdateResult where
  updated_any : Bool
  restarted : Bool
  changed_files : List String
  new_version : String
deriving DecidableEq

/-- The ambient context and external effects of
    `apply_update_from_release` (lines 271–375), all read-only for the
    model: the call arguments, the process context (`sys.frozen`,
    `sys.executable`, `app_dir()`, `tempfile.gettempdir()`), whether the
    staging directory pre-exists, the outcomes of the three network
    operations (release index fetch; manifest download + `load_manifest`;
    package download, giving the archive contents), and the local
    filesystem view used by the diff engine.  Progress, `stop_bin_cb` and
    `settings` persistence have no effect on the result and are omitted. -/
structure UpdateEnv where
  owner : String
  repo : String
  current_version : String
  manifest_name : String
  user_agent : String
  allow_internal : Bool
  frozen : Bool
  sys_executable : String
  base_dir : String
  tmp_dir : String
  stage_present : Bool
  fetchRelease : Except String Release
  fetchManifest : String → Except String Manifest
  fetchPackage : String → Except String ZipFile
  fs : FS

/-- What one run of `apply_update_from_release` did: its return value or
    the exception it raised, the HTTP requests it issued in order, the
    install-root paths it deleted or (atomically) overwrote, and the
    temp-dir paths it wrote or cleared. -/
structure UpdateTrace where
  result : Except String UpdateResult
  requests : List HttpRequest
  rootOps : List String
  tmpOps : List String
deriving DecidableEq

/-- `https://api.github.com/repos/{owner}/{repo}/releases/latest`. -/
def releases_latest_url (owner repo : String) : String :=
  "https://api.github.com/repos/" ++ owner ++ "/" ++ repo ++ "/releases/latest"

/-- `mvz_updater.apply_update_from_release` (lines 271–375) as a pure
    function of `UpdateEnv`.  Deviations from the source, all
    effect-bookkeeping only: the immediate deletions (lines 336–341) and
    immediate `atomic_copy_replace` calls (lines 350–354) are recorded as
    install-root operations and modelled as succeeding (per-file failure
    semantics of the copy itself are the subject of the separate
    `atomic_copy_replace_exec` model); the deferred `.bat` handoff is
    recorded as its temp-dir write and the spawned process is outside the
    model; `settings.setValue` and progress callbacks are dropped. -/
def apply_update_from_release (env : UpdateEnv) : UpdateTrace :=
  let relReq := _urlopen_request (releases_latest_url env.owner env.repo) env.user_agent
  match env.fetchRelease with
  | Except.error e => ⟨Except.error e, [relReq], [], []⟩
  | Except.ok latest =>
    let tag := strTrim (latest.tag_name.getD "")
    if tag = "" then ⟨Except.ok ⟨false, false, [], tag⟩, [relReq], [], []⟩
    else if tupleLeB (_version_tuple tag) (_version_tuple env.current_version) then
      ⟨Except.ok ⟨false, false, [], tag⟩, [relReq], [], []⟩
    else
      match find_asset_url latest env.manifest_name with
      | none => ⟨Except.ok ⟨false, false, [], tag⟩, [relReq], [], []⟩
      | some murl =>
        if murl = "" then ⟨Except.ok ⟨false, false, [], tag⟩, [relReq], [], []⟩
        else
          let exe_name := if env.frozen then basenameOf env.sys_executable else "MVZ.exe"
          let manifest_path := joinPath env.tmp_dir "mvz_manifest.json"
          let stage_dir := joinPath env.tmp_dir "mvz_update_stage"
          let zip_path := joinPath env.tmp_dir "mvz_update.zip"
          let tmp0 := if env.stage_present then [stage_dir] else []
          let manReq := _urlopen_request murl env.user_agent
          match env.fetchManifest murl with
          | Except.error e => ⟨Except.error e, [relReq, manReq], [], tmp0 ++ [manifest_path]⟩
          | Except.ok manifest =>
            let tmp1 := tmp0 ++ [manifest_path]
            match find_asset_url latest (package_name_of manifest) with
            | none => ⟨Except.ok ⟨false, false, [], tag⟩, [relReq, manReq], [], tmp1⟩
            | some purl =>
              if purl = "" then ⟨Except.ok ⟨false, false, [], tag⟩, [relReq, manReq], [], tmp1⟩
              else
                match compute_changed_files manifest env.fs env.base_dir with
                | Except.error e => ⟨Except.error e, [relReq, manReq], [], tmp1⟩
                | Except.ok changed =>
                  match compute_delete_files manifest env.fs env.base_dir with
                  | Except.error e => ⟨Except.error e, [relReq, manReq], [], tmp1⟩
                  | Except.ok deletes =>
                    let touched := _dedupe_keep_order (changed ++ deletes)
                    if touched = [] then
                      ⟨Except.ok ⟨false, false, [], tag⟩, [relReq, manReq], [], tmp1⟩
                    else
                      let imm_del := deletes.filter
                        (fun r => !needs_deferred r exe_name env.allow_internal)
                      let def_del := deletes.filter
                        (fun r => needs_deferred r exe_name env.allow_internal)
                      let delOps := imm_del.map (fun r => joinPath env.base_dir r)
                      let pkgReq := _urlopen_request purl env.user_agent
                      match env.fetchPackage purl with
                      | Except.error e =>
                        ⟨Except.error e, [relReq, manReq, pkgReq], delOps, tmp1 ++ [zip_path]⟩
                      | Except.ok zip =>
                        let tmp2 := tmp1 ++ [zip_path]
                        match extract_needed_from_zip zip changed stage_dir with
                        | Except.error e =>
                          ⟨Except.error e, [relReq, manReq, pkgReq], delOps, tmp2⟩
                        | Except.ok (ws, some e) =>
                          ⟨Except.error e, [relReq, manReq, pkgReq], delOps,
                            tmp2 ++ ws.map Prod.fst⟩
                        | Except.ok (ws, none) =>
                          let tmp3 := tmp2 ++ ws.map Prod.fst
                          let imm_files := changed.filter
                            (fun r => !needs_deferred r exe_name env.allow_internal)
                          let def_files := changed.filter
                            (fun r => needs_deferred r exe_name env.allow_internal)
                          let applyOps := imm_files.map (fun r => joinPath env.base_dir r)
                          if !def_files.isEmpty || !def_del.isEmpty then
                            if !env.frozen then
                              ⟨Except.error "Deferred update requires frozen build",
                                [relReq, manReq, pkgReq], delOps ++ applyOps, tmp3⟩
                            else
                              ⟨Except.ok ⟨true, true, touched, tag⟩,
                                [relReq, manReq, pkgReq], delOps ++ applyOps,
                                tmp3 ++ [joinPath env.tmp_dir "MVZ_update_files.bat"]⟩
                          else
                            ⟨Except.ok ⟨true, false, touched, tag⟩,
                              [relReq, manReq, pkgReq], delOps ++ applyOps, tmp3⟩

/-- State of the two paths `atomic_copy_replace` can touch: the contents
    at `dst` and at `dst + ".tmp"` (`none` = absent). -/
structure FileState where
  dst : Option String
  tmp : Option String
deriving DecidableEq

/-- Whether `atomic_copy_replace` returned normally or raised. -/
inductive AtomicOutcome where
  | ok
  | raised
deriving DecidableEq

/-- Executions of the `try` body of `atomic_copy_replace` (lines 80–84),
    given `src`'s contents (`none` = unreadable/absent source).  Each
    primitive may fail, raising into the `finally` block:
    * the pre-existing-temp `os.remove` may raise (state unchanged);
    * `shutil.copy2` may raise, leaving anything (absent or partial
      bytes) at the temp name and `dst` untouched;
    * after a successful copy the temp name holds exactly `src`'s bytes,
      and `os.replace` either raises changing nothing or atomically
      moves the temp over `dst`. -/
inductive bodyExec (src : Option String) : FileState → FileState → AtomicOutcome → Prop
  | removeTmpFail (s : FileState) : s.tmp ≠ none → bodyExec src s s AtomicOutcome.raised
  | copyFail (s : FileState) (junk : Option String) :
      bodyExec src s ⟨s.dst, junk⟩ AtomicOutcome.raised
  | replaceFail (c : String) (s : FileState) :
      src = some c → bodyExec src s ⟨s.dst, some c⟩ AtomicOutcome.raised
  | success (c : String) (s : FileState) :
      src = some c → bodyExec src s ⟨some c, none⟩ AtomicOutcome.ok

/-- Executions of the `finally` block (lines 85–90): if the temp name
    exists it is removed, but that removal is itself wrapped in
    `try/except: pass`, so it may fail and leave the temp behind. -/
inductive finExec : FileState → FileState → Prop
  | removed (s : FileState) : finExec s ⟨s.dst, none⟩
  | removeFail (s : FileState) : s.tmp ≠ none → finExec s s

/-- Executions of `mvz_updater.atomic_copy_replace` (lines 75–90):
    either `os.makedirs` raises before the `try` (nothing else runs), or
    the body runs to some outcome and the `finally` block then runs. -/
inductive atomic_copy_replace_exec (src : Option String) :
    FileState → FileState → AtomicOutcome → Prop
  | mkdirsFail (s : FileState) : atomic_copy_replace_exec src s s AtomicOutcome.raised
  | run (s1 s2 s3 : FileState) (o : AtomicOutcome) :
      bodyExec src s1 s2 o → finExec s2 s3 → atomic_copy_replace_exec src s1 s3 o

/-- Claim C3's membership condition for `compute_changed_files`: manifest
    item `it` justifies listing `r` when it is an object with a non-empty
    path and digest, its path sanitizes to `r`, and at `r` the local file
    is missing, hashes to a different digest (case-insensitively), or
    cannot be read. -/
def entryChanged (fs : FS) (base_dir : String) (it : ManifestItem) (r : String) : Prop :=
  ∃ p s, it = ManifestItem.file (some p) s ∧ p ≠ "" ∧ shaNorm s ≠ "" ∧
    _safe_rel_path p = Except.ok r ∧
    (fs.isfile (joinPath base_dir r) = false ∨
     (∃ e, fs.digest (joinPath base_dir r) = Except.error e) ∨
     (∃ d, fs.digest (joinPath base_dir r) = Except.ok d ∧ strToLower d ≠ shaNorm s))

/-- Membership condition for `compute_delete_files`: delete entry `d`
    justifies listing `r` when it is a string sanitizing to `r` and the
    target exists locally. -/
def entryDeleted (fs : FS) (base_dir : String) (d : DeleteItem) (r : String) : Prop :=
  ∃ s, d = some s ∧ _safe_rel_path s = Except.ok r ∧
    fs.pathExists (joinPath base_dir r) = true

/-- Some `files` entry of the manifest sanitizes to path `r`. -/
def fileEntryYields (m : Manifest) (r : String) : Prop :=
  ∃ it, it ∈ m.files ∧ ∃ p s, it = ManifestItem.file (some p) s ∧
    _safe_rel_path p = Except.ok r

/-- Some `delete` entry of the manifest sanitizes to path `r`. -/
def deleteEntryYields (m : Manifest) (r : String) : Prop :=
  ∃ d, d ∈ m.delete ∧ ∃ s, d = some s ∧ _safe_rel_path s = Except.ok r

/-- Every request in the list was opened with the module-level
    unverified SSL context. -/
def ReqsOk (l : List HttpRequest) : Prop :=
  ∀ r ∈ l, r.context = _SSL_CONTEXT

/-- C4 counterexample data: the path `"a"` is listed both as a file entry
    (with digest `"ab"`) and as a delete entry. -/
def sharedPathManifest : Manifest :=
  ⟨none, [ManifestItem.file (some "a") (some "ab")], [some "a"]⟩

/-- C4 counterexample filesystem: `"a"` exists locally and hashes to
    `"cd"` (≠ `"ab"`), so it is both changed and deletable. -/
def sharedPathFS : FS :=
  ⟨fun _ => true, fun _ => true, fun _ => Except.ok "cd"⟩

/-- C4 witness data: file entry `"a"`, delete entry `"b"` — no shared
    sanitized path. -/
def disjointManifest : Manifest :=
  ⟨none, [ManifestItem.file (some "a") (some "ff")], [some "b"]⟩

/-- C4 witness filesystem: nothing is a file (so `"a"` is changed), every
    path exists (so `"b"` is deletable). -/
def disjointFS : FS :=
  ⟨fun _ => false, fun _ => true, fun _ => Except.error "io"⟩

/-- C3/C8 witness manifest: a single entry `"lists/a.txt"` with digest
    `"aa"`. -/
def oneEntryManifest : Manifest :=
  ⟨none, [ManifestItem.file (some "lists/a.txt") (some "AA")], []⟩

/-- C3/C8 witness filesystem before the update: the file is absent. -/
def emptyFS : FS :=
  ⟨fun _ => false, fun _ => false, fun _ => Except.error "io"⟩

/-- C8 witness filesystem after applying the staged file: present, and
    hashing to the manifest digest (module case). -/
def appliedFS : FS :=
  ⟨fun _ => true, fun _ => false, fun _ => Except.ok "aa"⟩

/-- C5 witness environment: remote tag `v1.0` is not newer than the
    current version `2.0`.  Field order: owner, repo, current_version,
    manifest_name, user_agent, allow_internal, frozen, sys_executable,
    base_dir, tmp_dir, stage_present, fetchRelease, fetchManifest,
    fetchPackage, fs. -/
def staleReleaseEnv : UpdateEnv :=
  ⟨"o", "r", "2.0", "manifest.json", "ua", false, false, "", "app", "tmp", false,
    Except.ok ⟨some "v1.0", []⟩, fun _ => Except.error "x", fun _ => Except.error "x",
    ⟨fun _ => false, fun _ => false, fun _ => Except.error "io"⟩⟩

/-- C9 witness environment: remote tag `v9.9.9` is newer than `1.0.0`
    but the release carries no assets at all, so the manifest asset is
    missing. -/
def noAssetEnv : UpdateEnv :=
  ⟨"o", "r", "1.0.0", "manifest.json", "ua", false, false, "", "app", "tmp", false,
    Except.ok ⟨some "v9.9.9", []⟩, fun _ => Except.error "x", fun _ => Except.error "x",
    ⟨fun _ => false, fun _ => false, fun _ => Except.error "io"⟩⟩

/-- C10 witness environment: the release-index fetch raises, so exactly
    one request (the release index) is issued. -/
def netErrEnv : UpdateEnv :=
  ⟨"o", "r", "1.0.0", "manifest.json", "ua", false, false, "", "app", "tmp", false,
    Except.error "net down", fun _ => Except.error "x", fun _ => Except.error "x",
    ⟨fun _ => false, fun _ => false, fun _ => Except.error "io"⟩⟩

end MvzUpdater

namespace MvzUpdater

/-! ## Helper lemmas -/

theorem dedupGo_mem {a : String} : ∀ (l seen : List String),
    (a ∈ dedupGo seen l ↔ a ∈ l ∧ a ∉ seen) := by
  intro l
  induction l with
  | nil => intro seen; simp [dedupGo]
  | cons x xs ih =>
    intro seen
    simp only [dedupGo]
    by_cases hx : x ∈ seen
    · rw [if_pos hx, ih]
      constructor
      · rintro ⟨h1, h2⟩
        exact ⟨List.mem_cons_of_mem x h1, h2⟩
      · rintro ⟨h1, h2⟩
        rcases List.mem_cons.mp h1 with rfl | h1
        · exact absurd hx h2
        · exact ⟨h1, h2⟩
    · rw [if_neg hx]
      constructor
      · intro h
        rcases List.mem_cons.mp h with rfl | h
        · exact ⟨List.mem_cons_self a xs, hx⟩
        · rcases (ih (x :: seen)).mp h with ⟨h1, h2⟩
          exact ⟨List.mem_cons_of_mem x h1, fun hs => h2 (List.mem_cons_of_mem x hs)⟩
      · rintro ⟨h1, h2⟩
        rcases List.mem_cons.mp h1 with rfl | h1
        · exact List.mem_cons_self a _
        · by_cases hax : a = x
          · subst hax; exact List.mem_cons_self a _
          · refine List.mem_cons_of_mem x ((ih (x :: seen)).mpr ⟨h1, fun hs => ?_⟩)
            rcases List.mem_cons.mp hs with h | h
            · exact hax h
            · exact h2 h

theorem dedup_mem {a : String} {l : List String} :
    a ∈ _dedupe_keep_order l ↔ a ∈ l := by
  rw [_dedupe_keep_order, dedupGo_mem]
  simp

theorem dedupGo_nodup : ∀ (l seen : List String), (dedupGo seen l).Nodup := by
  intro l
  induction l with
  | nil => intro seen; simp [dedupGo]
  | cons x xs ih =>
    intro seen
    simp only [dedupGo]
    by_cases hx : x ∈ seen
    · rw [if_pos hx]; exact ih seen
    · rw [if_neg hx]
      refine List.nodup_cons.mpr ⟨fun h => ?_, ih (x :: seen)⟩
      exact (dedupGo_mem _ _ |>.mp h).2 (List.mem_cons_self x seen)

theorem dedupGo_sublist : ∀ (l seen : List String), (dedupGo seen l).Sublist l := by
  intro l
  induction l with
  | nil => intro seen; simp [dedupGo]
  | cons x xs ih =>
    intro seen
    simp only [dedupGo]
    by_cases hx : x ∈ seen
    · rw [if_pos hx]; exact (ih seen).cons x
    · rw [if_neg hx]; exact (ih (x :: seen)).cons₂ x

theorem localChanged_iff (fs : FS) (lp sha : String) :
    localChanged fs lp sha = true ↔
      (fs.isfile lp = false ∨ (∃ e, fs.digest lp = Except.error e) ∨
       (∃ d, fs.digest lp = Except.ok d ∧ strToLower d ≠ sha)) := by
  unfold localChanged
  by_cases h : fs.isfile lp = false
  · simp [h]
  · rw [if_neg h]
    cases hd : fs.digest lp with
    | error e => simp [h, hd]
    | ok d =>
      by_cases hs : strToLower d = sha
      · simp [h, hd, hs]
      · simp [h, hd, hs]

theorem localChanged_congr {fs fs' : FS} {lp sha : String}
    (h1 : fs'.isfile lp = fs.isfile lp) (h2 : fs'.digest lp = fs.digest lp) :
    localChanged fs' lp sha = localChanged fs lp sha := by
  unfold localChanged
  rw [h1, h2]

theorem changedRaw_mem (fs : FS) (base_dir : String) :
    ∀ (items : List ManifestItem) (raw : List String),
      changedRaw fs base_dir items = Except.ok raw →
      ∀ r, (r ∈ raw ↔ ∃ it, it ∈ items ∧ entryChanged fs base_dir it r) := by
  intro items
  induction items with
  | nil =>
    intro raw h r
    injection h with h
    subst h
    simp [entryChanged]
  | cons it rest ih =>
    intro raw h r
    have skip :
        changedRaw fs base_dir rest = Except.ok raw →
        ((∀ hc : entryChanged fs base_dir it r, False) →
          (r ∈ raw ↔ ∃ it', it' ∈ it :: rest ∧ entryChanged fs base_dir it' r)) := by
      intro hrest hnot
      rw [ih raw hrest r]
      constructor
      · rintro ⟨it', h1, h2⟩
        exact ⟨it', List.mem_cons_of_mem _ h1, h2⟩
      · rintro ⟨it', h1, h2⟩
        rcases List.mem_cons.mp h1 with rfl | h1
        · exact absurd h2 (fun hc => hnot hc)
        · exact ⟨it', h1, h2⟩
    cases it with
    | junk =>
      refine skip h ?_
      rintro ⟨p, s, heq, -⟩
      cases heq
    | file p s =>
      cases p with
      | none =>
        refine skip h ?_
        rintro ⟨p', s', heq, -⟩
        cases heq
      | some rel0 =>
        simp only [changedRaw] at h
        by_cases h0 : rel0 = ""
        · rw [if_pos h0] at h
          refine skip h ?_
          rintro ⟨p', s', heq, hp', -⟩
          cases heq
          exact hp' h0
        · rw [if_neg h0] at h
          by_cases h1 : shaNorm s = ""
          · rw [if_pos h1] at h
            refine skip h ?_
            rintro ⟨p', s', heq, -, hs', -⟩
            cases heq
            exact hs' h1
          · rw [if_neg h1] at h
            cases hsr : _safe_rel_path rel0 with
            | error e => rw [hsr] at h; cases h
            | ok rel =>
              rw [hsr] at h
              dsimp only at h
              by_cases hch : localChanged fs (joinPath base_dir rel) (shaNorm s) = true
              · rw [if_pos hch] at h
                cases hrest : changedRaw fs base_dir rest with
                | error e => rw [hrest] at h; cases h
                | ok raw' =>
                  rw [hrest] at h
                  injection h with h
                  subst h
                  rw [List.mem_cons, ih raw' hrest r]
                  constructor
                  · rintro (rfl | ⟨it', hm, hc⟩)
                    · refine ⟨ManifestItem.file (some rel0) s, List.mem_cons_self _ _,
                        rel0, s, rfl, h0, h1, hsr, ?_⟩
                      exact (localChanged_iff fs (joinPath base_dir r) (shaNorm s)).mp hch
                    · exact ⟨it', List.mem_cons_of_mem _ hm, hc⟩
                  · rintro ⟨it', hm, hc⟩
                    rcases List.mem_cons.mp hm with rfl | hm
                    · rcases hc with ⟨p', s', heq, -, -, hsr', -⟩
                      injection heq with hp' hs'
                      injection hp' with hp'
                      subst hp'
                      subst hs'
                      rw [hsr] at hsr'
                      injection hsr' with hsr'
                      exact Or.inl hsr'.symm
                    · exact Or.inr ⟨it', hm, hc⟩
              · rw [if_neg hch] at h
                refine skip h ?_
                rintro ⟨p', s', heq, -, -, hsr', hdis⟩
                injection heq with hp' hs'
                injection hp' with hp'
                subst hp'
                subst hs'
                rw [hsr] at hsr'
                injection hsr' with hsr'
                subst hsr'
                exact hch ((localChanged_iff fs (joinPath base_dir rel) (shaNorm s)).mpr hdis)

theorem changedRaw_ok_tail (fs : FS) (base_dir : String) (it0 : ManifestItem)
    (rest : List ManifestItem) (raw : List String)
    (h : changedRaw fs base_dir (it0 :: rest) = Except.ok raw) :
    ∃ raw', changedRaw fs base_dir rest = Except.ok raw' := by
  cases it0 with
  | junk => exact ⟨raw, h⟩
  | file p s =>
    cases p with
    | none => exact ⟨raw, h⟩
    | some rel0 =>
      simp only [changedRaw] at h
      by_cases h0 : rel0 = ""
      · rw [if_pos h0] at h; exact ⟨raw, h⟩
      · rw [if_neg h0] at h
        by_cases h1 : shaNorm s = ""
        · rw [if_pos h1] at h; exact ⟨raw, h⟩
        · rw [if_neg h1] at h
          cases hsr : _safe_rel_path rel0 with
          | error e => rw [hsr] at h; cases h
          | ok rel =>
            rw [hsr] at h
            dsimp only at h
            by_cases hch : localChanged fs (joinPath base_dir rel) (shaNorm s) = true
            · rw [if_pos hch] at h
              cases hrest : changedRaw fs base_dir rest with
              | error e => rw [hrest] at h; cases h
              | ok raw' => exact ⟨raw', rfl⟩
            · rw [if_neg hch] at h; exact ⟨raw, h⟩

theorem changedRaw_ok_sanitize (fs : FS) (base_dir : String) :
    ∀ (items : List ManifestItem) (raw : List String),
      changedRaw fs base_dir items = Except.ok raw →
      ∀ it ∈ items, ∀ p s, it = ManifestItem.file (some p) s → p ≠ "" → shaNorm s ≠ "" →
        ∃ rel, _safe_rel_path p = Except.ok rel := by
  intro items
  induction items with
  | nil => intro raw h it hit; cases hit
  | cons it0 rest ih =>
    intro raw h it hit p s heq hp hs
    rcases List.mem_cons.mp hit with rfl | hmem
    · subst heq
      simp only [changedRaw] at h
      rw [if_neg hp, if_neg hs] at h
      cases hsr : _safe_rel_path p with
      | error e => rw [hsr] at h; cases h
      | ok rel => exact ⟨rel, rfl⟩
    · obtain ⟨raw', hrest⟩ := changedRaw_ok_tail fs base_dir it0 rest raw h
      exact ih raw' hrest it hmem p s heq hp hs

theorem changedRaw_nil_of (fs' : FS) (base_dir : String) :
    ∀ (items : List ManifestItem),
      (∀ it ∈ items, ∀ p s, it = ManifestItem.file (some p) s → p ≠ "" → shaNorm s ≠ "" →
        ∃ rel, _safe_rel_path p = Except.ok rel ∧
          localChanged fs' (joinPath base_dir rel) (shaNorm s) = false) →
      changedRaw fs' base_dir items = Except.ok [] := by
  intro items
  induction items with
  | nil => intro _; rfl
  | cons it rest ih =>
    intro h
    have htail := ih (fun it' h' p s heq hp hs => h it' (List.mem_cons_of_mem _ h') p s heq hp hs)
    cases it with
    | junk => exact htail
    | file p s =>
      cases p with
      | none => exact htail
      | some rel0 =>
        simp only [changedRaw]
        by_cases h0 : rel0 = ""
        · rw [if_pos h0]; exact htail
        · rw [if_neg h0]
          by_cases h1 : shaNorm s = ""
          · rw [if_pos h1]; exact htail
          · rw [if_neg h1]
            obtain ⟨rel, hsr, hlc⟩ := h _ (List.mem_cons_self _ _) rel0 s rfl h0 h1
            rw [hsr]
            dsimp only
            rw [if_neg (by simp [hlc])]
            exact htail

theorem deleteRaw_mem (fs : FS) (base_dir : String) :
    ∀ (items : List DeleteItem) (raw : List String),
      deleteRaw fs base_dir items = Except.ok raw →
      ∀ r, (r ∈ raw ↔ ∃ d, d ∈ items ∧ entryDeleted fs base_dir d r) := by
  intro items
  induction items with
  | nil =>
    intro raw h r
    injection h with h
    subst h
    simp [entryDeleted]
  | cons d rest ih =>
    intro raw h r
    have skip : deleteRaw fs base_dir rest = Except.ok raw →
        ((entryDeleted fs base_dir d r → False) →
          (r ∈ raw ↔ ∃ d', d' ∈ d :: rest ∧ entryDeleted fs base_dir d' r)) := by
      intro hrest hnot
      rw [ih raw hrest r]
      constructor
      · rintro ⟨d', h1, h2⟩
        exact ⟨d', List.mem_cons_of_mem _ h1, h2⟩
      · rintro ⟨d', h1, h2⟩
        rcases List.mem_cons.mp h1 with rfl | h1
        · exact absurd h2 hnot
        · exact ⟨d', h1, h2⟩
    cases d with
    | none =>
      refine skip h ?_
      rintro ⟨s, heq, -⟩
      cases heq
    | some rel0 =>
      simp only [deleteRaw] at h
      cases hsr : _safe_rel_path rel0 with
      | error e => rw [hsr] at h; cases h
      | ok rel =>
        rw [hsr] at h
        dsimp only at h
        by_cases hex : fs.pathExists (joinPath base_dir rel) = true
        · rw [if_pos hex] at h
          cases hrest : deleteRaw fs base_dir rest with
          | error e => rw [hrest] at h; cases h
          | ok raw' =>
            rw [hrest] at h
            injection h with h
            subst h
            rw [List.mem_cons, ih raw' hrest r]
            constructor
            · rintro (rfl | ⟨d', hm, hc⟩)
              · exact ⟨some rel0, List.mem_cons_self _ _, rel0, rfl, hsr, hex⟩
              · exact ⟨d', List.mem_cons_of_mem _ hm, hc⟩
            · rintro ⟨d', hm, hc⟩
              rcases List.mem_cons.mp hm with rfl | hm
              · rcases hc with ⟨s', heq, hsr', -⟩
                injection heq with heq
                subst heq
                rw [hsr] at hsr'
                injection hsr' with hsr'
                exact Or.inl hsr'.symm
              · exact Or.inr ⟨d', hm, hc⟩
        · rw [if_neg hex] at h
          refine skip h ?_
          rintro ⟨s', heq, hsr', hex'⟩
          injection heq with heq
          subst heq
          rw [hsr] at hsr'
          injection hsr' with hsr'
          subst hsr'
          exact hex hex'

theorem tupleLe_eq_not_lt (a b : Nat × Nat × Nat) : tupleLeB a b = !tupleLtB b a := by
  obtain ⟨a1, a2, a3⟩ := a
  obtain ⟨b1, b2, b3⟩ := b
  simp only [tupleLeB, tupleLtB]
  split_ifs with h1 h2 h3 h4 <;>
    simp only [← decide_not, decide_eq_decide] <;>
    omega

/-! ## Claim theorems -/

/-- C1 (counterexample): the claim says `_safe_rel_path` raises a
    validation error on `"/x"` and on the empty string.  It does not:
    leading slashes are stripped before validation, so `"/x"` is accepted
    as `"x"`, and the empty string is accepted as `"."` (the
    `PurePosixPath` rendering of no components). -/
theorem C1_counterexample :
    _safe_rel_path "/x" = Except.ok "x" ∧ _safe_rel_path "" = Except.ok "." :=
  ⟨by decide, by decide⟩

/-- C1 (amended): `_safe_rel_path` raises on `"../x"` (traversal segment)
    and `"C:\\x"` (drive prefix, after backslash normalization), and
    returns `"a/b/c.txt"` unchanged; but `"/x"` is accepted with the
    leading slash stripped (returning `"x"`), and the empty string is
    accepted and returns `"."`. -/
theorem C1_safe_rel_path_cases :
    _safe_rel_path "../x" = Except.error "Bad path: ../x" ∧
    _safe_rel_path "C:\\x" = Except.error "Bad path: C:/x" ∧
    _safe_rel_path "a/b/c.txt" = Except.ok "a/b/c.txt" ∧
    _safe_rel_path "/x" = Except.ok "x" ∧
    _safe_rel_path "" = Except.ok "." :=
  ⟨by decide, by decide, by decide, by decide, by decide⟩

/-- C2 (counterexample): the claim says the deferred test compares the
    path's *basename* with the executable name; for `"bin/MVZ.exe"` the
    basename equals `"MVZ.exe"` so the claimed rule classifies it
    deferred, but `needs_deferred` compares the whole normalized path and
    classifies it immediate. -/
theorem C2_counterexample :
    needs_deferred_claimed "bin/MVZ.exe" "MVZ.exe" false = true ∧
    needs_deferred "bin/MVZ.exe" "MVZ.exe" false = false :=
  ⟨by decide, by decide⟩

/-- C2 (amended): `needs_deferred p e ai` is true iff the *whole* path
    `p` (backslashes normalized, lower-cased) equals `e` so normalized,
    or `ai` is set and the normalized path starts with `"_internal/"`;
    with `e = "MVZ.exe"` and `ai = true`, `"MVZ.exe"` and
    `"_internal/lib.dll"` are deferred while `"lists/hosts.txt"` is
    immediate. -/
theorem C2_needs_deferred_characterization :
    (∀ rel exe_name allow_internal,
      needs_deferred rel exe_name allow_internal =
        (strToLower (normSlashes rel) == strToLower (normSlashes exe_name) ||
          (allow_internal && strStartsWith (strToLower (normSlashes rel)) "_internal/"))) ∧
    needs_deferred "MVZ.exe" "MVZ.exe" true = true ∧
    needs_deferred "_internal/lib.dll" "MVZ.exe" true = true ∧
    needs_deferred "lists/hosts.txt" "MVZ.exe" true = false :=
  ⟨fun _ _ _ => rfl, by decide, by decide, by decide⟩

/-- C3: when `compute_changed_files` returns a list, a path is in it iff
    some manifest file entry with non-empty path and digest sanitizes to
    that path and the local file is missing, hashes differently
    (case-insensitive), or is unreadable; the list has no duplicates and
    is the order-preserving de-duplication (a sublist) of the raw scan. -/
theorem C3_compute_changed_files_characterization
    (m : Manifest) (fs : FS) (base_dir : String) (l : List String)
    (h : compute_changed_files m fs base_dir = Except.ok l) :
    (∀ r, r ∈ l ↔ ∃ it, it ∈ m.files ∧ entryChanged fs base_dir it r) ∧
    l.Nodup ∧
    ∃ raw, changedRaw fs base_dir m.files = Except.ok raw ∧
      l = _dedupe_keep_order raw ∧ l.Sublist raw := by
  unfold compute_changed_files at h
  cases hr : changedRaw fs base_dir m.files with
  | error e => rw [hr] at h; cases h
  | ok raw =>
    rw [hr] at h
    injection h with h
    subst h
    refine ⟨fun r => ?_, dedupGo_nodup raw [], raw, rfl, rfl, dedupGo_sublist raw []⟩
    rw [dedup_mem, changedRaw_mem fs base_dir m.files raw hr r]

/-- C3 witness: a one-entry manifest whose file is locally absent yields
    exactly that sanitized path. -/
theorem C3_witness :
    (∀ r, r ∈ ["lists/a.txt"] ↔
      ∃ it, it ∈ oneEntryManifest.files ∧ entryChanged emptyFS "app" it r) ∧
    (["lists/a.txt"] : List String).Nodup ∧
    ∃ raw, changedRaw emptyFS "app" oneEntryManifest.files = Except.ok raw ∧
      ["lists/a.txt"] = _dedupe_keep_order raw ∧ (["lists/a.txt"] : List String).Sublist raw :=
  C3_compute_changed_files_characterization oneEntryManifest emptyFS "app" ["lists/a.txt"]
    (by decide)

/-- C4 (counterexample): the claim says changed and deletions are always
    disjoint.  With path `"a"` listed both under `files` (digest `"ab"`)
    and under `delete`, existing locally with digest `"cd"`, the path
    appears in both outputs. -/
theorem C4_counterexample :
    compute_changed_files sharedPathManifest sharedPathFS "app" = Except.ok ["a"] ∧
    compute_delete_files sharedPathManifest sharedPathFS "app" = Except.ok ["a"] ∧
    ¬ (["a"] : List String).Disjoint ["a"] := by
  refine ⟨by decide, by decide, fun hd => ?_⟩
  exact hd (List.mem_cons_self "a" []) (List.mem_cons_self "a" [])

/-- C4 (amended): the changed list and the deletions list are disjoint
    provided no path is produced (after sanitization) both by a `files`
    entry and by a `delete` entry of the manifest. -/
theorem C4_disjoint_when_no_shared_path
    (m : Manifest) (fs : FS) (base_dir : String) (l1 l2 : List String)
    (h1 : compute_changed_files m fs base_dir = Except.ok l1)
    (h2 : compute_delete_files m fs base_dir = Except.ok l2)
    (hsep : ∀ r, fileEntryYields m r → deleteEntryYields m r → False) :
    l1.Disjoint l2 := by
  intro r hr1 hr2
  unfold compute_changed_files at h1
  cases hca : changedRaw fs base_dir m.files with
  | error e => rw [hca] at h1; cases h1
  | ok raw1 =>
    rw [hca] at h1
    injection h1 with h1
    subst h1
    unfold compute_delete_files at h2
    cases hdb : deleteRaw fs base_dir m.delete with
    | error e => rw [hdb] at h2; cases h2
    | ok raw2 =>
      rw [hdb] at h2
      injection h2 with h2
      subst h2
      rw [dedup_mem] at hr1 hr2
      obtain ⟨it, hit, p, s, heq, -, -, hsr, -⟩ :=
        (changedRaw_mem fs base_dir m.files raw1 hca r).mp hr1
      obtain ⟨d, hd, s', heq', hsr', -⟩ :=
        (deleteRaw_mem fs base_dir m.delete raw2 hdb r).mp hr2
      exact hsep r ⟨it, hit, p, s, heq, hsr⟩ ⟨d, hd, s', heq', hsr'⟩

/-- C4 witness: with file entry `"a"` and delete entry `"b"` the two
    computed lists are disjoint. -/
theorem C4_witness : (["a"] : List String).Disjoint ["b"] :=
  C4_disjoint_when_no_shared_path disjointManifest disjointFS "app" ["a"] ["b"]
    (by decide) (by decide)
    (by
      rintro r ⟨it, hit, p, s, heq, hsr⟩ ⟨d, hd, s', heq', hsr'⟩
      simp only [disjointManifest, List.mem_singleton] at hit hd
      subst hit
      subst hd
      injection heq with hp hs
      injection hp with hp
      subst hp
      injection heq' with heq'
      subst heq'
      rw [show _safe_rel_path "a" = Except.ok "a" from by decide] at hsr
      rw [show _safe_rel_path "b" = Except.ok "b" from by decide] at hsr'
      injection hsr with hsr
      injection hsr' with hsr'
      rw [← hsr] at hsr'
      exact (by decide : ("b" : String) ≠ "a") hsr')

/-- C8: applying the changed set and recomputing yields the empty list.
    `h` fixes the first diff; `happ` says every manifest entry whose
    sanitized path was reported changed now has a local file hashing
    (case-insensitively) to that entry's digest — the postcondition of
    `atomic_copy_replace` copying a correctly staged file into place;
    `hframe` says paths not reported changed kept their local state. -/
theorem C8_round_trip
    (m : Manifest) (fs fs' : FS) (base_dir : String) (ch : List String)
    (h : compute_changed_files m fs base_dir = Except.ok ch)
    (happ : ∀ it ∈ m.files, ∀ p s rel, it = ManifestItem.file (some p) s → p ≠ "" →
      shaNorm s ≠ "" → _safe_rel_path p = Except.ok rel → rel ∈ ch →
      fs'.isfile (joinPath base_dir rel) = true ∧
      ∃ d, fs'.digest (joinPath base_dir rel) = Except.ok d ∧ strToLower d = shaNorm s)
    (hframe : ∀ it ∈ m.files, ∀ p s rel, it = ManifestItem.file (some p) s → p ≠ "" →
      shaNorm s ≠ "" → _safe_rel_path p = Except.ok rel → rel ∉ ch →
      fs'.isfile (joinPath base_dir rel) = fs.isfile (joinPath base_dir rel) ∧
      fs'.digest (joinPath base_dir rel) = fs.digest (joinPath base_dir rel)) :
    compute_changed_files m fs' base_dir = Except.ok [] := by
  unfold compute_changed_files at h ⊢
  cases hr : changedRaw fs base_dir m.files with
  | error e => rw [hr] at h; cases h
  | ok raw =>
    rw [hr] at h
    injection h with h
    subst h
    have hcond : ∀ it ∈ m.files, ∀ p s, it = ManifestItem.file (some p) s → p ≠ "" →
        shaNorm s ≠ "" → ∃ rel, _safe_rel_path p = Except.ok rel ∧
          localChanged fs' (joinPath base_dir rel) (shaNorm s) = false := by
      intro it hit p s heq hp hs
      obtain ⟨rel, hsr⟩ := changedRaw_ok_sanitize fs base_dir m.files raw hr it hit p s heq hp hs
      refine ⟨rel, hsr, ?_⟩
      by_cases hmem : rel ∈ _dedupe_keep_order raw
      · obtain ⟨hfile, d, hdig, hld⟩ := happ it hit p s rel heq hp hs hsr hmem
        unfold localChanged
        rw [hfile, hdig]
        rw [if_neg (by simp)]
        dsimp only
        rw [if_pos hld]
      · have hlc : localChanged fs (joinPath base_dir rel) (shaNorm s) = false := by
          cases hb : localChanged fs (joinPath base_dir rel) (shaNorm s) with
          | false => rfl
          | true =>
            exfalso
            have hin : rel ∈ raw :=
              (changedRaw_mem fs base_dir m.files raw hr rel).mpr
                ⟨it, hit, p, s, heq, hp, hs, hsr,
                  (localChanged_iff fs (joinPath base_dir rel) (shaNorm s)).mp hb⟩
            exact hmem (dedup_mem.mpr hin)
        obtain ⟨hf, hd⟩ := hframe it hit p s rel heq hp hs hsr hmem
        rw [localChanged_congr hf hd, hlc]
    rw [changedRaw_nil_of fs' base_dir m.files hcond]
    rfl

/-- C8 witness: one manifest entry `lists/a.txt` with digest `AA`;
    before: absent (so changed = [that path]); after copying a staged
    file hashing to `aa` into place, the recomputed changed list is
    empty. -/
theorem C8_witness : compute_changed_files oneEntryManifest appliedFS "app" = Except.ok [] :=
  C8_round_trip oneEntryManifest emptyFS appliedFS "app" ["lists/a.txt"] (by decide)
    (by
      rintro it hit p s rel heq hp hs hsr hmem
      simp only [oneEntryManifest, List.mem_singleton] at hit
      subst hit
      injection heq with hp2 hs2
      refine ⟨rfl, "aa", rfl, ?_⟩
      rw [← hs2]
      decide)
    (by
      rintro it hit p s rel heq hp hs hsr hmem
      exfalso
      simp only [oneEntryManifest, List.mem_singleton] at hit
      subst hit
      injection heq with hp2 hs2
      injection hp2 with hp2
      rw [← hp2] at hsr
      rw [show _safe_rel_path "lists/a.txt" = Except.ok "lists/a.txt" from by decide] at hsr
      injection hsr with hsr
      exact hmem (hsr ▸ List.mem_cons_self _ _))

/-! ### Extraction lemmas (C7) -/

theorem extractGo_cons_miss (zip : ZipFile) (out_dir rel : String) (rest : List String)
    (h : zipHasEntry zip rel = false) :
    extractGo zip out_dir (rel :: rest) = ([], some ("update.zip missing file: " ++ rel)) := by
  simp only [zipHasEntry, Bool.or_eq_false_iff] at h
  obtain ⟨h1, h2⟩ := h
  have m1 : rel ∉ zip_namelist zip := by simpa using h1
  have m2 : "./" ++ rel ∉ zip_namelist zip := by simpa using h2
  simp [extractGo, m1, m2]

theorem extractGo_cons_hit (zip : ZipFile) (out_dir rel : String) (rest : List String)
    (h : zipHasEntry zip rel = true) :
    ∃ bytes, extractGo zip out_dir (rel :: rest) =
      ((joinPath out_dir rel, bytes) :: (extractGo zip out_dir rest).1,
        (extractGo zip out_dir rest).2) := by
  by_cases hc : (zip_namelist zip).contains rel = true
  · have m1 : rel ∈ zip_namelist zip := by simpa using hc
    exact ⟨(zipOpen zip rel).getD "", by simp [extractGo, m1]⟩
  · have m1 : rel ∉ zip_namelist zip := by
      intro hm
      exact hc (by simpa using hm)
    have m2 : "./" ++ rel ∈ zip_namelist zip := by
      simp only [zipHasEntry, Bool.or_eq_true] at h
      rcases h with h | h
      · exact absurd h hc
      · simpa using h
    exact ⟨(zipOpen zip ("./" ++ rel)).getD "", by simp [extractGo, m1, m2]⟩

theorem extractGo_writes (zip : ZipFile) (out_dir : String) :
    ∀ (l : List String), ∀ w ∈ (extractGo zip out_dir l).1,
      ∃ rel, rel ∈ l ∧ w.1 = joinPath out_dir rel := by
  intro l
  induction l with
  | nil => intro w hw; cases hw
  | cons rel rest ih =>
    intro w hw
    by_cases h : zipHasEntry zip rel = true
    · obtain ⟨bytes, heq⟩ := extractGo_cons_hit zip out_dir rel rest h
      rw [heq] at hw
      rcases List.mem_cons.mp hw with rfl | hw
      · exact ⟨rel, List.mem_cons_self _ _, rfl⟩
      · obtain ⟨rel', h1, h2⟩ := ih w hw
        exact ⟨rel', List.mem_cons_of_mem _ h1, h2⟩
    · have hf : zipHasEntry zip rel = false := by
        cases hb : zipHasEntry zip rel
        · rfl
        · exact absurd hb h
      rw [extractGo_cons_miss zip out_dir rel rest hf] at hw
      cases hw

theorem extractGo_missing (zip : ZipFile) (out_dir : String) :
    ∀ (l : List String) (rel : String), rel ∈ l → zipHasEntry zip rel = false →
      (extractGo zip out_dir l).2 ≠ none := by
  intro l
  induction l with
  | nil => intro rel h; cases h
  | cons rel0 rest ih =>
    intro rel hmem hmiss
    by_cases h : zipHasEntry zip rel0 = true
    · obtain ⟨bytes, heq⟩ := extractGo_cons_hit zip out_dir rel0 rest h
      rw [heq]
      rcases List.mem_cons.mp hmem with rfl | hmem
      · rw [h] at hmiss; cases hmiss
      · exact ih rel hmem hmiss
    · have hf : zipHasEntry zip rel0 = false := by
        cases hb : zipHasEntry zip rel0
        · rfl
        · exact absurd hb h
      rw [extractGo_cons_miss zip out_dir rel0 rest hf]
      simp

theorem extractGo_success (zip : ZipFile) (out_dir : String) :
    ∀ (l : List String), (extractGo zip out_dir l).2 = none →
      (extractGo zip out_dir l).1.map Prod.fst = l.map (joinPath out_dir) := by
  intro l
  induction l with
  | nil => intro _; rfl
  | cons rel rest ih =>
    intro h
    by_cases hz : zipHasEntry zip rel = true
    · obtain ⟨bytes, heq⟩ := extractGo_cons_hit zip out_dir rel rest hz
      rw [heq] at h ⊢
      simp only [List.map_cons]
      rw [ih h]
    · have hf : zipHasEntry zip rel = false := by
        cases hb : zipHasEntry zip rel
        · rfl
        · exact absurd hb hz
      rw [extractGo_cons_miss zip out_dir rel rest hf] at h
      cases h

/-- C7: when `extract_needed_from_zip` runs on sanitized paths, every
    write it performs lands at `out_dir/rel` for a requested sanitized
    `rel` (extraction only ever touches the staging directory — the
    install root is never written); if any requested entry is absent from
    the archive (under its name or `./`-prefixed) the run reports the
    integrity error; and a run without error extracts exactly the
    requested entries, in order. -/
theorem C7_extract_needed_behaviour
    (zip : ZipFile) (needed : List String) (out_dir : String)
    (sanitized : List String) (ws : List (String × String)) (err : Option String)
    (hs : needed.mapM _safe_rel_path = Except.ok sanitized)
    (hx : extract_needed_from_zip zip needed out_dir = Except.ok (ws, err)) :
    (∀ w ∈ ws, ∃ rel, rel ∈ sanitized ∧ w.1 = joinPath out_dir rel) ∧
    ((∃ rel, rel ∈ sanitized ∧ zipHasEntry zip rel = false) → err ≠ none) ∧
    (err = none → ws.map Prod.fst = sanitized.map (joinPath out_dir)) := by
  unfold extract_needed_from_zip at hx
  rw [hs] at hx
  injection hx with hx
  have h1 : (extractGo zip out_dir sanitized).1 = ws := congrArg Prod.fst hx
  have h2 : (extractGo zip out_dir sanitized).2 = err := congrArg Prod.snd hx
  refine ⟨?_, ?_, ?_⟩
  · intro w hw
    rw [← h1] at hw
    exact extractGo_writes zip out_dir sanitized w hw
  · rintro ⟨rel, hmem, hmiss⟩
    rw [← h2]
    exact extractGo_missing zip out_dir sanitized rel hmem hmiss
  · intro hnone
    rw [← h1]
    exact extractGo_success zip out_dir sanitized (h2.trans hnone)

/-- C7 witness: a one-entry archive and a matching request extract to the
    staging directory with no error. -/
theorem C7_witness :
    (∀ w ∈ [(("stage/a/b.txt" : String), ("hi" : String))],
      ∃ rel, rel ∈ ["a/b.txt"] ∧ w.1 = joinPath "stage" rel) ∧
    ((∃ rel, rel ∈ ["a/b.txt"] ∧ zipHasEntry [("a/b.txt", "hi")] rel = false) →
      (none : Option String) ≠ none) ∧
    ((none : Option String) = none →
      [(("stage/a/b.txt" : String), ("hi" : String))].map Prod.fst =
        ["a/b.txt"].map (joinPath "stage")) :=
  C7_extract_needed_behaviour [("a/b.txt", "hi")] ["a/b.txt"] "stage" ["a/b.txt"]
    [("stage/a/b.txt", "hi")] none (by decide) (by decide)

/-- C5: the normalized version examples of the claim, and the update
    gate: whenever the trimmed remote tag's tuple is not strictly greater
    than the current version's tuple, `apply_update_from_release` returns
    `UpdateResult(False, False, [], tag)` without touching the install
    root. -/
theorem C5_version_ordering_and_gate :
    tupleLtB (_version_tuple "1.3.9") (_version_tuple "v1.4") = true ∧
    _version_tuple "v2.0.0-beta" = (2, 0, 0) ∧
    _version_tuple "v2.0.0-beta" = _version_tuple "2.0" ∧
    tupleLtB (_version_tuple "v1.9") (_version_tuple "v1.10") = true ∧
    (∀ (env : UpdateEnv) (latest : Release), env.fetchRelease = Except.ok latest →
      tupleLtB (_version_tuple env.current_version)
          (_version_tuple (strTrim (latest.tag_name.getD ""))) = false →
      (apply_update_from_release env).result =
        Except.ok ⟨false, false, [], strTrim (latest.tag_name.getD "")⟩ ∧
      (apply_update_from_release env).rootOps = []) := by
  refine ⟨by decide, by decide, by decide, by decide, ?_⟩
  intro env latest h1 h2
  have hLe : tupleLeB (_version_tuple (strTrim (latest.tag_name.getD "")))
      (_version_tuple env.current_version) = true := by
    rw [tupleLe_eq_not_lt, h2]
    rfl
  simp only [apply_update_from_release]
  rw [h1]
  dsimp only
  by_cases htag : strTrim (latest.tag_name.getD "") = ""
  · rw [if_pos htag]
    exact ⟨rfl, rfl⟩
  · rw [if_neg htag, if_pos hLe]
    exact ⟨rfl, rfl⟩

/-- C5 witness: remote tag `v1.0` against current version `2.0` — the
    gate reports up-to-date and performs no install-root operation. -/
theorem C5_witness :
    (apply_update_from_release staleReleaseEnv).result =
      Except.ok ⟨false, false, [], "v1.0"⟩ ∧
    (apply_update_from_release staleReleaseEnv).rootOps = [] :=
  C5_version_ordering_and_gate.2.2.2.2 staleReleaseEnv ⟨some "v1.0", []⟩ rfl (by decide)

/-- C9: with a strictly newer remote tag, if the release has no usable
    asset named `manifest_name`, or the manifest downloads fine but the
    release has no usable asset matching the manifest's package name,
    `apply_update_from_release` returns
    `UpdateResult(False, False, [], tag)` — no exception — and performs
    no operation on the install root. -/
theorem C9_missing_asset_no_update
    (env : UpdateEnv) (latest : Release)
    (h1 : env.fetchRelease = Except.ok latest)
    (h2 : strTrim (latest.tag_name.getD "") ≠ "")
    (h3 : tupleLtB (_version_tuple env.current_version)
        (_version_tuple (strTrim (latest.tag_name.getD ""))) = true)
    (h4 : (∀ u, find_asset_url latest env.manifest_name = some u → u = "") ∨
      (∃ murl manifest, find_asset_url latest env.manifest_name = some murl ∧ murl ≠ "" ∧
        env.fetchManifest murl = Except.ok manifest ∧
        ∀ u, find_asset_url latest (package_name_of manifest) = some u → u = "")) :
    (apply_update_from_release env).result =
      Except.ok ⟨false, false, [], strTrim (latest.tag_name.getD "")⟩ ∧
    (apply_update_from_release env).rootOps = [] := by
  have hLe : tupleLeB (_version_tuple (strTrim (latest.tag_name.getD "")))
      (_version_tuple env.current_version) = false := by
    rw [tupleLe_eq_not_lt, h3]
    rfl
  simp only [apply_update_from_release]
  rw [h1]
  dsimp only
  rw [if_neg h2, if_neg (by simp [hLe])]
  rcases h4 with h4 | ⟨murl, manifest, hfm, hmne, hman, hpkg⟩
  · cases hfind : find_asset_url latest env.manifest_name with
    | none => exact ⟨rfl, rfl⟩
    | some u =>
      dsimp only
      rw [if_pos (h4 u hfind)]
      exact ⟨rfl, rfl⟩
  · rw [hfm]
    dsimp only
    rw [if_neg hmne, hman]
    dsimp only
    cases hfind2 : find_asset_url latest (package_name_of manifest) with
    | none => exact ⟨rfl, rfl⟩
    | some u =>
      dsimp only
      rw [if_pos (hpkg u hfind2)]
      exact ⟨rfl, rfl⟩

/-- C9 witness: tag `v9.9.9` is newer than `1.0.0` but the release has
    an empty asset list, so the manifest asset is missing. -/
theorem C9_witness :
    (apply_update_from_release noAssetEnv).result =
      Except.ok ⟨false, false, [], "v9.9.9"⟩ ∧
    (apply_update_from_release noAssetEnv).rootOps = [] :=
  C9_missing_asset_no_update noAssetEnv ⟨some "v9.9.9", []⟩ rfl (by decide) (by decide)
    (Or.inl (fun u h => by
      rw [show find_asset_url (⟨some "v9.9.9", []⟩ : Release) noAssetEnv.manifest_name = none
        from rfl] at h
      cases h))

theorem apply_update_requests_ctx (env : UpdateEnv) :
    ReqsOk (apply_update_from_release env).requests := by
  simp only [apply_update_from_release]
  repeat' split
  all_goals (intro r hr; fin_cases hr <;> rfl)

/-- C10: every HTTP request `apply_update_from_release` issues — the
    release-index fetch, the manifest download, and the package
    download — carries the module-level `_SSL_CONTEXT`, which is built by
    `ssl._create_unverified_context` with certificate verification (and
    hostname checking) disabled, so no such request can fail certificate
    validation whatever the server certificate's validity. -/
theorem C10_all_requests_unverified_ssl (env : UpdateEnv) :
    _SSL_CONTEXT.verify_cert = false ∧ _SSL_CONTEXT.check_hostname = false ∧
    (∀ r ∈ (apply_update_from_release env).requests,
      r.context = _SSL_CONTEXT ∧
        ∀ cert_ok, cert_validation_failure r cert_ok = false) := by
  refine ⟨rfl, rfl, fun r hr => ?_⟩
  have hctx := apply_update_requests_ctx env r hr
  refine ⟨hctx, fun cert_ok => ?_⟩
  simp [cert_validation_failure, hctx, _SSL_CONTEXT, ssl_create_unverified_context]

/-- C10 witness: the release-index request of a run whose fetch fails is
    in the request log and carries the unverified context. -/
theorem C10_witness :
    (_urlopen_request (releases_latest_url "o" "r") "ua").context = _SSL_CONTEXT ∧
    ∀ cert_ok,
      cert_validation_failure (_urlopen_request (releases_latest_url "o" "r") "ua") cert_ok
        = false :=
  (C10_all_requests_unverified_ssl netErrEnv).2.2 _ (by decide)

/-- C6 (counterexample): the claim says the temporary name is removed on
    every failure path.  If `shutil.copy2` raises leaving partial bytes
    at the temp name and the `finally` block's `os.remove` itself raises
    (it is wrapped in `try/except: pass`), the call raises with the
    temporary still present. -/
theorem C6_counterexample :
    atomic_copy_replace_exec (some "new") ⟨some "old", none⟩ ⟨some "old", some "part"⟩
      AtomicOutcome.raised ∧
    (⟨some "old", some "part"⟩ : FileState).tmp ≠ none := by
  constructor
  · exact atomic_copy_replace_exec.run _ _ _ _
      (bodyExec.copyFail ⟨some "old", none⟩ (some "part"))
      (finExec.removeFail ⟨some "old", some "part"⟩ (by simp))
  · simp

/-- C6 (amended): whether `atomic_copy_replace` returns or raises, the
    destination afterwards holds either its previous content or exactly
    the source's content (never partial bytes), and on normal return it
    holds the source's content with the temporary name gone; on failure
    paths the temporary's removal is attempted but may itself fail, so
    the temporary name can remain. -/
theorem C6_atomic_dst_integrity
    (src : Option String) (s0 s1 : FileState) (o : AtomicOutcome)
    (h : atomic_copy_replace_exec src s0 s1 o) :
    (s1.dst = s0.dst ∨ (src ≠ none ∧ s1.dst = src)) ∧
    (o = AtomicOutcome.ok → s1.dst = src ∧ s1.tmp = none) := by
  cases h with
  | mkdirsFail => exact ⟨Or.inl rfl, fun hok => nomatch hok⟩
  | run s2 _ _ hb hf =>
    cases hf with
    | removed =>
      cases hb with
      | removeTmpFail hne => exact ⟨Or.inl rfl, fun hok => nomatch hok⟩
      | copyFail junk => exact ⟨Or.inl rfl, fun hok => nomatch hok⟩
      | replaceFail c hc => exact ⟨Or.inl rfl, fun hok => nomatch hok⟩
      | success c _ hc =>
        refine ⟨Or.inr ⟨?_, ?_⟩, fun _ => ⟨?_, rfl⟩⟩
        · rw [hc]
          exact fun hn => Option.noConfusion hn
        · rw [hc]
        · rw [hc]
    | removeFail hne =>
      cases hb with
      | removeTmpFail hne2 => exact ⟨Or.inl rfl, fun hok => nomatch hok⟩
      | copyFail junk => exact ⟨Or.inl rfl, fun hok => nomatch hok⟩
      | replaceFail c hc => exact ⟨Or.inl rfl, fun hok => nomatch hok⟩
      | success c _ hc => exact absurd rfl hne

/-- C6 witness: a fully successful execution — copy then atomic
    rename — ends with the destination holding the source content and no
    temp artifact. -/
theorem C6_witness :
    ((⟨some "new", none⟩ : FileState).dst = (⟨some "old", none⟩ : FileState).dst ∨
      ((some "new" : Option String) ≠ none ∧
        (⟨some "new", none⟩ : FileState).dst = some "new")) ∧
    (AtomicOutcome.ok = AtomicOutcome.ok →
      (⟨some "new", none⟩ : FileState).dst = some "new" ∧
        (⟨some "new", none⟩ : FileState).tmp = none) :=
  C6_atomic_dst_integrity (some "new") ⟨some "old", none⟩ ⟨some "new", none⟩ AtomicOutcome.ok
    (atomic_copy_replace_exec.run _ _ _ _
      (bodyExec.success "new" ⟨some "old", none⟩ rfl)
      (finExec.removed ⟨some "new", none⟩))

end MvzUpdater
